import Mathlib

/-!
Verification development for the strategy-backtest engine
(`src/backend/backtest.py`) and its grid-search optimizer
(`src/backend/optimizer.py`).

Modelling conventions of the shallow embedding:
* Python floats are modelled by exact rationals `ℚ`; decimal literals such
  as `0.15` denote the exact decimal rational.  (In `ℚ`, `x / 0 = 0`.)
* A calendar date is modelled by the two projections the engine actually
  reads: its ordinal day number `ord` (so `(d2 - d1).days = d2.ord - d1.ord`)
  and its calendar `month`.
* Python float exponentiation `a ** b` (used only for CAGR) and the square
  root used by the Sharpe ratio are not exactly representable in `ℚ`; they
  are passed to the model as explicit function parameters `rpow` and `sqrtQ`.
  No claim below depends on their values.
* `float('inf')` (profit factor) is modelled by a dedicated constructor.
* Exceptions raised by `BacktestEngine.run` are modelled by `Except RunErr`.
-/

namespace StrategyBacktest

/-- A calendar date, reduced to the two fields the engine reads:
the ordinal day number and the calendar month. -/
structure Date where
  ord : Int
  month : Int
deriving DecidableEq

/-- One raw price observation: `{date, price}` (`backtest.py` input rows). -/
structure Row where
  date : Date
  price : ℚ
deriving DecidableEq

/-- The `BacktestEngine.__init__` configuration.  `strategy_mode` and
`trade_direction` stay strings, as in the source, so that the source's
string-comparison fallthroughs (`else: # single-ma`) are preserved.
Date bounds are ordinal day numbers. -/
structure Config where
  initial_cash : ℚ := 100000
  leverage : ℚ := 2
  fee_rate : ℚ := 0.001
  slippage : ℚ := 0.0005
  strategy_mode : String := "buy-hold"
  ma_fast : Nat := 20
  ma_slow : Nat := 60
  trade_direction : String := "long-only"
  do_rebalance : Bool := true
  enable_yield : Bool := false
  annual_yield : ℚ := 0.04
  start_date : Option Int := none
  end_date : Option Int := none
deriving DecidableEq

/-- Python's `abs` on a rational, written to be kernel-reducible
(Mathlib's lattice `|q|` is not). -/
def absQ (q : ℚ) : ℚ := if q < 0 then -q else q

/-- `absQ` agrees with Mathlib's absolute value. -/
theorem absQ_eq_abs (q : ℚ) : absQ q = |q| := by
  unfold absQ
  rcases lt_or_le q 0 with h | h
  · rw [if_pos h, abs_of_neg h]
  · rw [if_neg (not_lt.mpr h), abs_of_nonneg h]

/-- Stable insertion of `x` after all already-placed rows that are `≤` it. -/
def insertByDate (x : Row) : List Row → List Row
  | [] => [x]
  | y :: ys => if y.date.ord ≤ x.date.ord then y :: insertByDate x ys else x :: y :: ys

/-- Stable sort by date ascending.  Pandas `sort_values` is a stable sort;
on lists a stable sort by a total preorder is unique, so stable insertion
sort (kernel-reducible, unlike well-founded `mergeSort`) models it exactly. -/
def sortByDate (data : List Row) : List Row :=
  data.foldl (fun acc x => insertByDate x acc) []

/-- `BacktestEngine.__init__`: sort the rows by date (stable), then filter
by the inclusive date bounds. -/
def prepare (cfg : Config) (data : List Row) : List Row :=
  let sorted := sortByDate data
  let f1 := match cfg.start_date with
    | some s => sorted.filter fun r => s ≤ r.date.ord
    | none => sorted
  match cfg.end_date with
  | some e => f1.filter fun r => r.date.ord ≤ e
  | none => f1

/-- Rolling simple moving average (`df['price'].rolling(window=w).mean()`)
read at index `i`: defined (`some`) exactly when `w` observations ending at
`i` exist, `NaN` (`none`) otherwise. -/
def maAt (w : Nat) (prices : List ℚ) (i : Nat) : Option ℚ :=
  if w ≤ i + 1 ∧ i < prices.length then
    some (((prices.drop (i + 1 - w)).take w).sum / (w : ℚ))
  else none

/-- `series.shift(1)` read at index `i`: the value at `i - 1`, `NaN` at 0. -/
def shiftAt (f : Nat → Option ℚ) (i : Nat) : Option ℚ :=
  match i with
  | 0 => none
  | j + 1 => f j

/-- Strict `>` on float columns: any comparison with `NaN` is `False`. -/
def optGT : Option ℚ → Option ℚ → Bool
  | some x, some y => decide (y < x)
  | _, _ => false

/-- Strict `<` on float columns: any comparison with `NaN` is `False`. -/
def optLT : Option ℚ → Option ℚ → Bool
  | some x, some y => decide (x < y)
  | _, _ => false

/-- `<=` on float columns: any comparison with `NaN` is `False`. -/
def optLE : Option ℚ → Option ℚ → Bool
  | some x, some y => decide (x ≤ y)
  | _, _ => false

/-- `>=` on float columns: any comparison with `NaN` is `False`. -/
def optGE : Option ℚ → Option ℚ → Bool
  | some x, some y => decide (y ≤ x)
  | _, _ => false

/-- The price column read as a float series (`some` inside range). -/
def priceAt (prices : List ℚ) (i : Nat) : Option ℚ :=
  prices[i]?

/-- `Signal_Buy` at index `i` for the `single-ma` branch:
`(price > MA_Fast) & (price.shift(1) <= MA_Fast.shift(1))`. -/
def buySingleAt (cfg : Config) (prices : List ℚ) (i : Nat) : Bool :=
  optGT (priceAt prices i) (maAt cfg.ma_fast prices i) &&
    optLE (shiftAt (priceAt prices) i) (shiftAt (maAt cfg.ma_fast prices) i)

/-- `Signal_Sell` at index `i` for the `single-ma` branch:
`(price < MA_Fast) & (price.shift(1) >= MA_Fast.shift(1))`. -/
def sellSingleAt (cfg : Config) (prices : List ℚ) (i : Nat) : Bool :=
  optLT (priceAt prices i) (maAt cfg.ma_fast prices i) &&
    optGE (shiftAt (priceAt prices) i) (shiftAt (maAt cfg.ma_fast prices) i)

/-- `Signal_Buy` at index `i` for the `dual-ma` branch:
`(MA_Fast > MA_Slow) & (MA_Fast.shift(1) <= MA_Slow.shift(1))`. -/
def buyDualAt (cfg : Config) (prices : List ℚ) (i : Nat) : Bool :=
  optGT (maAt cfg.ma_fast prices i) (maAt cfg.ma_slow prices i) &&
    optLE (shiftAt (maAt cfg.ma_fast prices) i) (shiftAt (maAt cfg.ma_slow prices) i)

/-- `Signal_Sell` at index `i` for the `dual-ma` branch:
`(MA_Fast < MA_Slow) & (MA_Fast.shift(1) >= MA_Slow.shift(1))`. -/
def sellDualAt (cfg : Config) (prices : List ℚ) (i : Nat) : Bool :=
  optLT (maAt cfg.ma_fast prices i) (maAt cfg.ma_slow prices i) &&
    optGE (shiftAt (maAt cfg.ma_fast prices) i) (shiftAt (maAt cfg.ma_slow prices) i)

/-- Buy signal at index `i`, per strategy mode (`run`, lines 68-81).
Any mode string other than `buy-hold` / `dual-ma` falls through to
`single-ma`, exactly as the source's `else` branch does. -/
def buyAt (cfg : Config) (prices : List ℚ) (i : Nat) : Bool :=
  if cfg.strategy_mode = "buy-hold" then decide (i = 0) && decide (0 < prices.length)
  else if cfg.strategy_mode = "dual-ma" then buyDualAt cfg prices i
  else buySingleAt cfg prices i

/-- Sell signal at index `i`, per strategy mode. -/
def sellAt (cfg : Config) (prices : List ℚ) (i : Nat) : Bool :=
  if cfg.strategy_mode = "buy-hold" then false
  else if cfg.strategy_mode = "dual-ma" then sellDualAt cfg prices i
  else sellSingleAt cfg prices i

/-- The first index the simulation keeps (`start_idx`): `0` for buy-hold,
`ma_slow` for dual-ma, `ma_fast` otherwise (single-ma). -/
def startIdx (cfg : Config) : Nat :=
  if cfg.strategy_mode = "buy-hold" then 0
  else if cfg.strategy_mode = "dual-ma" then cfg.ma_slow
  else cfg.ma_fast

/-- Direction tag of a ledger entry (the source's strings
`做多` / `做空` / `再平衡`). -/
inductive TradeDir where
  | long
  | short
  | rebalance
deriving DecidableEq

/-- A trade-ledger entry.  `entry_date = none` models the source's `""`
fallback for an unset entry date. -/
structure Trade where
  direction : TradeDir
  entry_date : Option Date
  exit_date : Date
  entry_price : ℚ
  exit_price : ℚ
  units : ℚ
  pnl : ℚ
  pnl_pct : ℚ
deriving DecidableEq

/-- One point of the equity curve. -/
structure EquityPoint where
  date : Date
  value : ℚ
deriving DecidableEq

/-- The mutable state of the simulation loop (`run`, lines 84-91).
`pos` is the source's integer flag (1 = long, -1 = short, 0 = flat).
`liquidated` is a ghost flag recording that the liquidation branch
(lines 115-121) fired; it influences nothing and exists only so that
theorems can talk about liquidating runs. -/
structure SimState where
  cash : ℚ
  pos : Int
  entry_price : ℚ
  entry_date : Option Date
  units : ℚ
  curve : List EquityPoint
  trades : List Trade
  liquidated : Bool
deriving DecidableEq

/-- The initial loop state. -/
def initState (cfg : Config) : SimState :=
  { cash := cfg.initial_cash, pos := 0, entry_price := 0, entry_date := none,
    units := 0, curve := [], trades := [], liquidated := false }

/-- Yield accrual (lines 106-110): while long, if enabled and not the first
period, add `prev_price * annual_yield/252 * units` to cash *before* the
equity snapshot. -/
def yieldAdjustedCash (cfg : Config) (first : Bool) (prev : Row) (s : SimState) : ℚ :=
  if cfg.enable_yield ∧ s.pos = 1 ∧ ¬first then
    s.cash + prev.price * (cfg.annual_yield / 252) * s.units
  else s.cash

/-- Monthly-rebalance stage (lines 129-149), applied to the state after the
equity snapshot.  `equity` is the `current_equity` computed earlier in the
same period (used for the trade's `pnl_pct`). -/
def rebalanceStage (cfg : Config) (first : Bool) (prev curr : Row) (equity : ℚ)
    (s : SimState) : SimState :=
  if cfg.do_rebalance = true ∧ ¬first ∧ curr.date.month ≠ prev.date.month ∧
      s.pos ≠ 0 ∧ 0 < s.cash then
    let realized := (curr.price - s.entry_price) * s.units * (s.pos : ℚ)
    let cash2 := s.cash + realized
    let target := cash2 * cfg.leverage / curr.price
    let fee := absQ (target - s.units) * curr.price * cfg.fee_rate
    { s with
      cash := cash2 - fee,
      units := target,
      entry_price := curr.price,
      trades := s.trades ++ [{
        direction := .rebalance, entry_date := some curr.date,
        exit_date := curr.date, entry_price := curr.price, exit_price := curr.price,
        units := target, pnl := -fee,
        pnl_pct := if 0 < equity then -fee / equity else 0 }] }
  else s

/-- Closing a Long on a sell signal (lines 155-173): exit with slippage
against the holder, deduct the exit fee, record the trade, realize into
cash, go flat. -/
def closeLong (cfg : Config) (curr : Row) (s : SimState) : SimState :=
  let exit_p := curr.price * (1 - cfg.slippage)
  let pnl := (exit_p - s.entry_price) * s.units
  let fee := exit_p * s.units * cfg.fee_rate
  let net := pnl - fee
  { s with
    cash := s.cash + net, pos := 0, units := 0,
    trades := s.trades ++ [{
      direction := .long, entry_date := s.entry_date,
      exit_date := curr.date, entry_price := s.entry_price, exit_price := exit_p,
      units := s.units, pnl := net,
      pnl_pct := if 0 < s.cash then net / s.cash else 0 }] }

/-- Closing a Short on a buy signal (lines 181-199): mirror image. -/
def closeShort (cfg : Config) (curr : Row) (s : SimState) : SimState :=
  let exit_p := curr.price * (1 + cfg.slippage)
  let pnl := (s.entry_price - exit_p) * s.units
  let fee := exit_p * s.units * cfg.fee_rate
  let net := pnl - fee
  { s with
    cash := s.cash + net, pos := 0, units := 0,
    trades := s.trades ++ [{
      direction := .short, entry_date := s.entry_date,
      exit_date := curr.date, entry_price := s.entry_price, exit_price := exit_p,
      units := s.units, pnl := net,
      pnl_pct := if 0 < s.cash then net / s.cash else 0 }] }

/-- Opening a Long (lines 201-205 / 208-212): entry at `price * (1 + slippage)`,
sized `leverage * cash / entry_price / (1 + fee_rate)`. -/
def openLong (cfg : Config) (curr : Row) (s : SimState) : SimState :=
  { s with
    pos := 1, entry_price := curr.price * (1 + cfg.slippage),
    units := s.cash * cfg.leverage / (curr.price * (1 + cfg.slippage)) / (1 + cfg.fee_rate),
    entry_date := some curr.date }

/-- Opening a Short (lines 175-179 / 213-217): entry at `price * (1 - slippage)`. -/
def openShort (cfg : Config) (curr : Row) (s : SimState) : SimState :=
  { s with
    pos := -1, entry_price := curr.price * (1 - cfg.slippage),
    units := s.cash * cfg.leverage / (curr.price * (1 - cfg.slippage)) / (1 + cfg.fee_rate),
    entry_date := some curr.date }

/-- Signal-driven transition stage (lines 151-217).  Note the Long-after-Short
flip (line 201) is guarded only by `cash > 0`, while both Short entries
require `trade_direction = "long-short"`. -/
def signalStage (cfg : Config) (curr : Row) (sigBuy sigSell : Bool)
    (s : SimState) : SimState :=
  if s.pos = 1 ∧ sigSell = true then
    if cfg.trade_direction = "long-short" ∧ 0 < (closeLong cfg curr s).cash then
      openShort cfg curr (closeLong cfg curr s)
    else closeLong cfg curr s
  else if s.pos = -1 ∧ sigBuy = true then
    if 0 < (closeShort cfg curr s).cash then openLong cfg curr (closeShort cfg curr s)
    else closeShort cfg curr s
  else if s.pos = 0 ∧ 0 < s.cash then
    if sigBuy = true then openLong cfg curr s
    else if sigSell = true ∧ cfg.trade_direction = "long-short" then openShort cfg curr s
    else s
  else s

/-- One loop iteration (lines 95-217).  Returns the next state and a halt
flag; the halt flag is `true` exactly when the liquidation branch
(lines 114-121) fired, which is the only `break` of the loop. -/
def stepPeriod (cfg : Config) (first : Bool) (prev curr : Row)
    (sigBuy sigSell : Bool) (s : SimState) : SimState × Bool :=
  let cash1 := yieldAdjustedCash cfg first prev s
  let equity := if s.pos ≠ 0 then
      cash1 + (curr.price - s.entry_price) * s.units * (s.pos : ℚ)
    else cash1
  if s.pos ≠ 0 ∧ equity < cfg.initial_cash * 0.15 then
    ({ s with
       cash := cash1, liquidated := true,
       curve := s.curve ++ [{ date := curr.date, value := 0 }] }, true)
  else
    let s1 := { s with
      cash := cash1,
      curve := s.curve ++ [{ date := curr.date, value := equity }] }
    let s2 := rebalanceStage cfg first prev curr equity s1
    (signalStage cfg curr sigBuy sigSell s2, false)

/-- The simulation loop over the trimmed rows paired with their signals.
`prev` carries the previous row (for `i = 0` the source sets
`prev_date = current_date`; `runLoop` passes the head itself). -/
def simLoop (cfg : Config) : Row → Bool → List (Row × Bool × Bool) → SimState → SimState
  | _, _, [], s => s
  | prev, first, (r, sb, ss) :: rest, s =>
    let (s1, halt) := stepPeriod cfg first prev r sb ss s
    if halt then s1 else simLoop cfg r false rest s1

/-- Run the loop from the first trimmed row. -/
def runLoop (cfg : Config) (rows : List (Row × Bool × Bool)) (s : SimState) : SimState :=
  match rows with
  | [] => s
  | r :: _ => simLoop cfg r.1 true rows s

/-- Forced close at series end (lines 219-238).  `rows` is the trimmed
series; this runs after the loop whether it finished or broke out. -/
def forcedClose (cfg : Config) (rows : List Row) (s : SimState) : SimState :=
  match rows.getLast? with
  | none => s
  | some lastRow =>
    if s.pos ≠ 0 ∧ 0 < s.cash then
      let exit_p := if s.pos = 1 then lastRow.price * (1 - cfg.slippage)
        else lastRow.price * (1 + cfg.slippage)
      let pnl := (exit_p - s.entry_price) * s.units * (s.pos : ℚ)
      let fee := exit_p * s.units * cfg.fee_rate
      let net := pnl - fee
      { s with
        cash := s.cash + net,
        trades := s.trades ++ [{
          direction := if s.pos = 1 then .long else .short,
          entry_date := s.entry_date, exit_date := lastRow.date,
          entry_price := s.entry_price, exit_price := exit_p, units := s.units,
          pnl := net, pnl_pct := if 0 < s.cash then net / s.cash else 0 }] }
    else s

/-- Running maximum (`np.maximum.accumulate`), seeded with `acc`. -/
def runningPeaks (acc : ℚ) : List ℚ → List ℚ
  | [] => []
  | v :: vs => max acc v :: runningPeaks (max acc v) vs

/-- Minimum of a nonempty list, as `numpy`'s `.min()`. -/
def listMin (x : ℚ) (xs : List ℚ) : ℚ :=
  xs.foldl min x

/-- `BacktestEngine._calc_max_drawdown` (lines 270-278): `0` for an empty
curve, else `|min ((values - peaks) / peaks)|` with `peaks` the running
maximum. -/
def calcMaxDrawdown (values : List ℚ) : ℚ :=
  match values with
  | [] => 0
  | v :: vs =>
    let peaks := runningPeaks v (v :: vs)
    match (v :: vs).zipWith (fun x p => (x - p) / p) peaks with
    | [] => 0
    | d :: ds => absQ (listMin d ds)

/-- Maximum of a nonempty list. -/
def listMax (x : ℚ) (xs : List ℚ) : ℚ :=
  xs.foldl max x

/-- Modelled from the spec's words only (for the refinement half of C8):
`mdd = max over time of (peak - value)/peak` using the running maximum of
the equity curve up to each point; `0` if the curve is empty. -/
def mddSpec (values : List ℚ) : ℚ :=
  match values with
  | [] => 0
  | v :: vs =>
    let peaks := runningPeaks v (v :: vs)
    match (v :: vs).zipWith (fun x p => (p - x) / p) peaks with
    | [] => 0
    | d :: ds => listMax d ds

/-- Arithmetic mean of a list (`np.mean`); `0` on `[]` stands for the
unused empty case. -/
def listMean (xs : List ℚ) : ℚ :=
  xs.sum / (xs.length : ℚ)

/-- Period-over-period percentage changes (`pd.Series.pct_change().dropna()`).
A zero previous value, which in floats would give `inf`/`NaN`, here uses
`ℚ`'s `x / 0 = 0`; no claim depends on that case. -/
def pctChanges : List ℚ → List ℚ
  | a :: b :: rest => (b - a) / a :: pctChanges (b :: rest)
  | _ => []

/-- `BacktestEngine._calc_sharpe` (lines 280-292), with the square root
passed in as `sqrtQ`.  The sample standard deviation (`ddof = 1`) is
`sqrtQ` of the sample variance. -/
def calcSharpe (sqrtQ : ℚ → ℚ) (values : List ℚ) : ℚ :=
  if values.length < 2 then 0
  else
    let returns := pctChanges values
    let m := listMean returns
    let variance := (returns.map fun r => (r - m) ^ 2).sum / ((returns.length : ℚ) - 1)
    let sd := sqrtQ variance
    if sd = 0 then 0
    else (m * 252 - 0.02) / (sd * sqrtQ 252)

/-- The profit factor: a float that may be `float('inf')`. -/
inductive ProfitFactor where
  | finite (q : ℚ)
  | infinite
deriving DecidableEq

/-- The trade-statistics record returned by `_calc_trade_stats`. -/
structure TradeStats where
  total_trades : Nat
  win_rate : ℚ
  profit_loss_quotient : ℚ
  profit_factor : ProfitFactor
deriving DecidableEq

/-- `BacktestEngine._calc_trade_stats` (lines 294-327).  Rebalance entries
are excluded; wins are `pnl > 0`, losses are `pnl <= 0`.
(The source's `profit_loss_ratio` key is the `profit_loss_quotient` field.) -/
def calcTradeStats (trades : List Trade) : TradeStats :=
  let pure_trades := trades.filter fun t => t.direction ≠ TradeDir.rebalance
  if pure_trades = [] then
    { total_trades := 0, win_rate := 0, profit_loss_quotient := 0,
      profit_factor := .finite 0 }
  else
    let wins := pure_trades.filter fun t => 0 < t.pnl
    let losses := pure_trades.filter fun t => t.pnl ≤ 0
    let total_trades := pure_trades.length
    let win_rate := ((wins.length : ℚ) / (total_trades : ℚ)) * 100
    let avg_win := if wins ≠ [] then listMean (wins.map Trade.pnl) else 0
    let avg_loss := if losses ≠ [] then absQ (listMean (losses.map Trade.pnl)) else 0
    let plq := if 0 < avg_loss then avg_win / avg_loss else 0
    let total_profit := (wins.map Trade.pnl).sum
    let total_loss := absQ ((losses.map Trade.pnl).sum)
    let pf := if 0 < total_loss then ProfitFactor.finite (total_profit / total_loss)
      else ProfitFactor.infinite
    { total_trades := total_trades, win_rate := win_rate,
      profit_loss_quotient := plq, profit_factor := pf }

/-- Exceptions `BacktestEngine.run` can raise:
`insufficientData` is the explicit `ValueError` of line 62;
`emptyTrimmed` is the `IndexError` from `df['date'].iloc[-1]` (line 245)
when the trimmed series is empty. -/
inductive RunErr where
  | insufficientData
  | emptyTrimmed
deriving DecidableEq

/-- The dictionary returned by `BacktestEngine.run` (lines 259-268). -/
structure BacktestResult where
  final_value : ℚ
  total_return : ℚ
  cagr : ℚ
  mdd : ℚ
  sharpe : ℚ
  equity_curve : List EquityPoint
  trades : List Trade
  trade_stats : TradeStats
deriving DecidableEq

/-- The trimmed simulation input: rows from `start_idx` on, paired with
their buy/sell signals (the source trims `df` after adding the signal
columns, so signals are trimmed with the rows). -/
def trimmedRows (cfg : Config) (df : List Row) : List (Row × Bool × Bool) :=
  let prices := df.map Row.price
  ((List.range df.length).map fun i =>
    (df.getD i { date := { ord := 0, month := 0 }, price := 0 },
      buyAt cfg prices i, sellAt cfg prices i)).drop (startIdx cfg)

/-- The loop state after the simulation loop, before the forced close. -/
def postLoopState (cfg : Config) (data : List Row) : SimState :=
  let df := prepare cfg data
  runLoop cfg (trimmedRows cfg df) (initState cfg)

/-- `BacktestEngine.run` (lines 57-268).  `rpow a b` models the float
power `a ** b` used for CAGR; `sqrtQ` models `np.sqrt`. -/
def run (cfg : Config) (data : List Row) (rpow : ℚ → ℚ → ℚ)
    (sqrtQ : ℚ → ℚ) : Except RunErr BacktestResult :=
  let df := prepare cfg data
  if df.length < 30 then .error .insufficientData
  else
    let rows := trimmedRows cfg df
    let st := runLoop cfg rows (initState cfg)
    let st2 := forcedClose cfg (rows.map Prod.fst) st
    let final_value := match st2.curve.getLast? with
      | some e => e.value
      | none => cfg.initial_cash
    match (rows.map Prod.fst).getLast?, (rows.map Prod.fst).head? with
    | some lastRow, some firstRow =>
      let days : ℚ := ((lastRow.date.ord - firstRow.date.ord : Int) : ℚ)
      let years := max (days / 365.25) 0.01
      let values := st2.curve.map EquityPoint.value
      .ok {
        final_value := final_value,
        total_return := final_value / cfg.initial_cash - 1,
        cagr := rpow (final_value / cfg.initial_cash) (1 / years) - 1,
        mdd := calcMaxDrawdown values,
        sharpe := calcSharpe sqrtQ values,
        equity_curve := st2.curve,
        trades := st2.trades,
        trade_stats := calcTradeStats st2.trades }
    | _, _ => .error .emptyTrimmed

/-! ## Optimizer (`src/backend/optimizer.py`) -/

/-- `StrategyOptimizer.__init__` parameters (the price data is passed
separately).  `ma_range`/`lev_range` are the two-element lists `[lo, hi]`.
MA periods are naturals, as they feed `Config.ma_fast`. -/
structure OptConfig where
  ma_lo : Nat := 10
  ma_hi : Nat := 60
  ma_step : Nat := 10
  lev_lo : ℚ := 1
  lev_hi : ℚ := 3
  lev_step : ℚ := 0.5
  max_mdd : ℚ := 0.5
  filter_liquidation : Bool := true
  target : String := "total_return"
  start_date : Option Int := none
  end_date : Option Int := none
deriving DecidableEq

/-- `range(ma_range[0], ma_range[1] + 1, ma_step)` (line 50).
Python's `range` with step `0` raises; that case is modelled as `[]`. -/
def maValues (o : OptConfig) : List Nat :=
  if o.ma_step = 0 then []
  else (List.range ((o.ma_hi + 1 - o.ma_lo + o.ma_step - 1) / o.ma_step)).map
    fun k => o.ma_lo + k * o.ma_step

/-- The `while lev <= hi: append; lev += step` loop (lines 51-55).  In exact
rational arithmetic repeated addition equals `lo + k * step`, so the list
is `lo, lo + step, …` while `≤ hi`.  A non-positive step with `lo ≤ hi`
never terminates in the source; that case is modelled as `[]`. -/
def levValues (o : OptConfig) : List ℚ :=
  if 0 < o.lev_step ∧ o.lev_lo ≤ o.lev_hi then
    (List.range ((((o.lev_hi - o.lev_lo) / o.lev_step).floor).toNat + 1)).map
      fun k => o.lev_lo + (k : ℚ) * o.lev_step
  else []

/-- `self.strategies` (line 40). -/
def optStrategies : List String := ["buy-hold", "single-ma"]

/-- `self.directions` (line 43). -/
def optDirections : List String := ["long-only"]

/-- One grid combination, in loop-nesting order `(ma, lev, strategy, direction)`. -/
def Combo := Nat × ℚ × String × String

/-- All combinations in the source's nesting order (lines 60-63). -/
def combos (o : OptConfig) : List Combo :=
  (maValues o).flatMap fun ma =>
    (levValues o).flatMap fun lev =>
      optStrategies.flatMap fun strat =>
        optDirections.map fun dir => (ma, lev, strat, dir)

/-- `_get_strategy_name` (lines 151-158). -/
def getStrategyName (strat : String) : String :=
  if strat = "buy-hold" then "永遠做多"
  else if strat = "single-ma" then "單均線策略"
  else if strat = "dual-ma" then "雙均線策略"
  else strat

/-- `_get_direction_name` (lines 160-166). -/
def getDirectionName (dir : String) : String :=
  if dir = "long-only" then "僅做多"
  else if dir = "long-short" then "做多與做空"
  else dir

/-- The engine configuration built for one combination (lines 68-83). -/
def engineCfg (o : OptConfig) (c : Combo) : Config :=
  { initial_cash := 100000, leverage := c.2.1, fee_rate := 0.001,
    slippage := 0.0005, strategy_mode := c.2.2.1, ma_fast := c.1,
    ma_slow := c.1 * 3, trade_direction := c.2.2.2, do_rebalance := true,
    enable_yield := false, annual_yield := 0.04,
    start_date := o.start_date, end_date := o.end_date }

/-- One row of the optimizer's `results` list (lines 90-101), including the
internal `is_liquidated` flag.  `ma_period = none` models the `'-'`
placeholder. -/
structure Candidate where
  strategy : String
  direction : String
  ma_period : Option Nat
  leverage : ℚ
  total_return : ℚ
  cagr : ℚ
  mdd : ℚ
  sharpe : ℚ
  calmar : ℚ
  is_liquidated : Bool
deriving DecidableEq

/-- A result row after `r.pop('is_liquidated', None)` (lines 142-143):
the same record without the internal flag. -/
structure CandidateOut where
  strategy : String
  direction : String
  ma_period : Option Nat
  leverage : ℚ
  total_return : ℚ
  cagr : ℚ
  mdd : ℚ
  sharpe : ℚ
  calmar : ℚ
deriving DecidableEq

/-- Dropping the internal `is_liquidated` flag. -/
def stripFlag (c : Candidate) : CandidateOut :=
  { strategy := c.strategy, direction := c.direction, ma_period := c.ma_period,
    leverage := c.leverage, total_return := c.total_return, cagr := c.cagr,
    mdd := c.mdd, sharpe := c.sharpe, calmar := c.calmar }

/-- Building the candidate for one successful run (lines 87-101). -/
def mkCand (c : Combo) (r : BacktestResult) : Candidate :=
  { strategy := getStrategyName c.2.2.1,
    direction := getDirectionName c.2.2.2,
    ma_period := if c.2.2.1 ≠ "buy-hold" then some c.1 else none,
    leverage := c.2.1,
    total_return := r.total_return, cagr := r.cagr, mdd := r.mdd,
    sharpe := r.sharpe,
    calmar := if 0 < r.mdd then r.cagr / r.mdd else 0,
    is_liquidated := decide (r.final_value < 15000) }

/-- The `try/except` sweep (lines 60-105): each combination bumps the
`tested` counter; a run that raises contributes nothing to `results`. -/
def optLoop (o : OptConfig) (data : List Row) (rpow : ℚ → ℚ → ℚ) (sqrtQ : ℚ → ℚ) :
    List Combo → Nat → List Candidate → Nat × List Candidate
  | [], tested, acc => (tested, acc)
  | c :: rest, tested, acc =>
    match run (engineCfg o c) data rpow sqrtQ with
    | .ok r => optLoop o data rpow sqrtQ rest (tested + 1) (acc ++ [mkCand c r])
    | .error _ => optLoop o data rpow sqrtQ rest (tested + 1) acc

/-- The buy-hold deduplication pass (lines 117-129): the first buy-hold row
per leverage survives with its `ma_period`/`direction` normalised to the
placeholder; later buy-hold rows with a seen leverage are dropped. -/
def dedupLoop : List Candidate → List ℚ → List Candidate
  | [], _ => []
  | r :: rest, seen =>
    if r.strategy = "永遠做多" then
      if r.leverage ∈ seen then dedupLoop rest seen
      else { r with ma_period := none, direction := "-" } ::
        dedupLoop rest (seen ++ [r.leverage])
    else r :: dedupLoop rest seen

/-- The sort-key lookup (lines 132-137): the four known targets map to
themselves, anything else defaults to `total_return`. -/
def metricOf (target : String) (c : CandidateOut) : ℚ :=
  if target = "cagr" then c.cagr
  else if target = "sharpe" then c.sharpe
  else if target = "calmar" then c.calmar
  else c.total_return

/-- `metricOf` read off a pre-strip candidate. -/
def metricOfC (target : String) (c : Candidate) : ℚ :=
  metricOf target (stripFlag c)

/-- The optimizer's return value (lines 145-149). -/
structure OptResult where
  total_tested : Nat
  valid_results : Nat
  top_results : List CandidateOut
deriving DecidableEq

/-- `StrategyOptimizer.run` (lines 45-149): sweep, filter, dedup, sort
descending by the target metric (Python's stable sort with `reverse=True`,
modelled by stable `mergeSort` on the reversed comparison), strip the
internal flag, return the top 10. -/
def optRun (o : OptConfig) (data : List Row) (rpow : ℚ → ℚ → ℚ)
    (sqrtQ : ℚ → ℚ) : OptResult :=
  let p := optLoop o data rpow sqrtQ (combos o) 0 []
  let f1 := if o.filter_liquidation then p.2.filter fun r => r.is_liquidated = false
    else p.2
  let f2 := f1.filter fun r => r.mdd ≤ o.max_mdd
  let dedup := dedupLoop f2 []
  let sorted := dedup.mergeSort fun a b => metricOfC o.target b ≤ metricOfC o.target a
  { total_tested := p.1, valid_results := dedup.length,
    top_results := (sorted.map stripFlag).take 10 }

/-! ## Theorems -/

/-- Concrete date helper for witnesses. -/
def mkDate (o : Int) (m : Int) : Date := { ord := o, month := m }

/-- Concrete row helper for witnesses. -/
def mkRow (o : Int) (p : ℚ) : Row := { date := mkDate o 1, price := p }

/-- 30 observations at a constant price of 100, one per day, same month. -/
def flatData : List Row := (List.range 30).map fun i => mkRow i 100

/-- C4.  `run` fails with the insufficient-data error exactly when the
date-filtered series has fewer than 30 observations; the `Except` return
type makes it impossible for any partial result to accompany the error. -/
theorem run_insufficient_data_iff (cfg : Config) (data : List Row)
    (rpow : ℚ → ℚ → ℚ) (sqrtQ : ℚ → ℚ) :
    run cfg data rpow sqrtQ = .error .insufficientData ↔
      (prepare cfg data).length < 30 := by
  unfold run
  by_cases h : (prepare cfg data).length < 30
  · simp [h]
  · simp only [if_neg h]
    constructor
    · intro hc
      exfalso
      split at hc
      · exact Except.noConfusion hc
      · exact RunErr.noConfusion (Except.error.inj hc)
    · intro hc
      exact absurd hc h

/-- C10.  When the date-filtered series passes the 30-observation gate but
the strategy's valid start index is at least the series length, the trimmed
period sequence is empty, the day-count lookup on the last date fails, and
`run` raises (the `IndexError` modelled by `emptyTrimmed`) instead of
returning any `BacktestResult`. -/
theorem run_errors_on_empty_trimmed (cfg : Config) (data : List Row)
    (rpow : ℚ → ℚ → ℚ) (sqrtQ : ℚ → ℚ)
    (h30 : 30 ≤ (prepare cfg data).length)
    (hstart : (prepare cfg data).length ≤ startIdx cfg) :
    run cfg data rpow sqrtQ = .error .emptyTrimmed := by
  have hrows : trimmedRows cfg (prepare cfg data) = [] := by
    unfold trimmedRows
    apply List.drop_eq_nil_of_le
    simpa using hstart
  unfold run
  rw [if_neg (by omega)]
  simp [hrows]

/-- Witness for C10: a 30-point series with `single-ma` and
`ma_fast = 40 ≥ 30` makes `run` raise. -/
theorem run_errors_on_empty_trimmed_witness :
    30 ≤ (prepare { strategy_mode := "single-ma", ma_fast := 40 } flatData).length ∧
    (prepare { strategy_mode := "single-ma", ma_fast := 40 } flatData).length ≤
      startIdx { strategy_mode := "single-ma", ma_fast := 40 } ∧
    run { strategy_mode := "single-ma", ma_fast := 40 } flatData
      (fun a _ => a) (fun a => a) = .error .emptyTrimmed :=
  ⟨by decide, by decide,
    run_errors_on_empty_trimmed _ _ _ _ (by decide) (by decide)⟩

/-- Scaling by a nonnegative constant commutes with the running maximum. -/
theorem runningPeaks_map_mul (c : ℚ) (hc : 0 ≤ c) :
    ∀ (l : List ℚ) (a : ℚ),
      runningPeaks (c * a) (l.map fun v => c * v) =
        (runningPeaks a l).map fun v => c * v := by
  intro l
  induction l with
  | nil => intro a; rfl
  | cons v vs ih =>
    intro a
    simp only [List.map_cons, runningPeaks, ← mul_max_of_nonneg _ _ hc, ih]

/-- Drawdown lists are invariant under scaling by a positive constant. -/
theorem zipDD_scale (c : ℚ) (hc : 0 < c) :
    ∀ (l : List ℚ) (a : ℚ),
      List.zipWith (fun x p => (x - p) / p) (l.map fun v => c * v)
          (runningPeaks (c * a) (l.map fun v => c * v)) =
        List.zipWith (fun x p => (x - p) / p) l (runningPeaks a l) := by
  intro l
  induction l with
  | nil => intro a; rfl
  | cons v vs ih =>
    intro a
    simp only [List.map_cons, runningPeaks, ← mul_max_of_nonneg _ _ hc.le,
      List.zipWith_cons_cons, ih]
    congr 1
    rw [show c * v - c * max a v = c * (v - max a v) from by ring,
      mul_div_mul_left _ _ hc.ne']

/-- The seed is a lower bound for a `foldl max`. -/
theorem le_listMax (xs : List ℚ) : ∀ x : ℚ, x ≤ listMax x xs := by
  induction xs with
  | nil => intro x; exact le_rfl
  | cons y ys ih =>
    intro x
    exact le_trans (le_max_left x y) (ih (max x y))

/-- `foldl min` over negated values is the negated `foldl max`. -/
theorem listMin_neg (xs : List ℚ) : ∀ x : ℚ,
    listMin (-x) (xs.map fun v => -v) = -listMax x xs := by
  induction xs with
  | nil => intro x; rfl
  | cons y ys ih =>
    intro x
    simp only [listMin, listMax, List.map_cons, List.foldl_cons] at ih ⊢
    rw [min_neg_neg]
    exact ih (max x y)

/-- C8.  The maximum-drawdown computation is scale-invariant on positive
curves, agrees with the spec's formulation `max over time of
(peak - value)/peak`, and returns `0` on the empty curve. -/
theorem mdd_scale_invariant (l : List ℚ) (c : ℚ)
    (hl : l ≠ []) (hpos : ∀ v ∈ l, 0 < v) (hc : 0 < c) :
    calcMaxDrawdown (l.map fun v => c * v) = calcMaxDrawdown l ∧
    calcMaxDrawdown l = mddSpec l ∧
    calcMaxDrawdown ([] : List ℚ) = 0 := by
  refine ⟨?_, ?_, rfl⟩
  · match l with
    | [] => exact absurd rfl hl
    | v :: vs =>
      simp only [List.map_cons, calcMaxDrawdown]
      rw [show (c * v :: vs.map fun v => c * v) = (v :: vs).map fun v => c * v from rfl,
        zipDD_scale c hc (v :: vs) v]
  · match l with
    | [] => rfl
    | v :: vs =>
      simp only [calcMaxDrawdown, mddSpec, runningPeaks, max_self,
        List.zipWith_cons_cons, sub_self, zero_div]
      have hneg : List.zipWith (fun x p => (x - p) / p) vs (runningPeaks v vs) =
          (List.zipWith (fun x p => (p - x) / p) vs (runningPeaks v vs)).map
            fun q => -q := by
        rw [List.map_zipWith]
        congr 1
        funext x p
        rw [← neg_div, neg_sub]
      rw [hneg]
      have h0 := listMin_neg (List.zipWith (fun x p => (p - x) / p) vs (runningPeaks v vs)) 0
      rw [neg_zero] at h0
      rw [h0, absQ_eq_abs, abs_neg, abs_of_nonneg (le_listMax _ 0)]

/-- Witness for C8 at the concrete curve `[4, 2]` with `c = 2`. -/
theorem mdd_scale_invariant_witness :
    ([4, 2] : List ℚ) ≠ [] ∧ (∀ v ∈ ([4, 2] : List ℚ), 0 < v) ∧ (0 : ℚ) < 2 ∧
    (calcMaxDrawdown (([4, 2] : List ℚ).map fun v => 2 * v) =
        calcMaxDrawdown ([4, 2] : List ℚ) ∧
      calcMaxDrawdown ([4, 2] : List ℚ) = mddSpec ([4, 2] : List ℚ) ∧
      calcMaxDrawdown ([] : List ℚ) = 0) :=
  ⟨by decide, by decide, by decide,
    mdd_scale_invariant [4, 2] 2 (by decide) (by decide) (by decide)⟩

/-- A sum of nonpositive rationals is nonpositive. -/
theorem sum_nonpos_of_all : ∀ l : List ℚ, (∀ x ∈ l, x ≤ 0) → l.sum ≤ 0 := by
  intro l
  induction l with
  | nil => intro _; simp
  | cons x xs ih =>
    intro h
    have hx : x ≤ 0 := h x (List.mem_cons_self x xs)
    have hs : xs.sum ≤ 0 := ih fun y hy => h y (List.mem_cons_of_mem x hy)
    simp only [List.sum_cons]
    linarith

/-- A sum of nonpositive rationals is zero exactly when every term is zero. -/
theorem sum_eq_zero_iff_of_nonpos :
    ∀ l : List ℚ, (∀ x ∈ l, x ≤ 0) → (l.sum = 0 ↔ ∀ x ∈ l, x = 0) := by
  intro l
  induction l with
  | nil => intro _; simp
  | cons x xs ih =>
    intro h
    have hx : x ≤ 0 := h x (List.mem_cons_self x xs)
    have hxs : ∀ y ∈ xs, y ≤ 0 := fun y hy => h y (List.mem_cons_of_mem x hy)
    have hsum : xs.sum ≤ 0 := sum_nonpos_of_all xs hxs
    constructor
    · intro h0
      simp only [List.sum_cons] at h0
      have hx0 : x = 0 := by linarith
      have hs0 : xs.sum = 0 := by linarith
      intro y hy
      rcases List.mem_cons.mp hy with rfl | hy'
      · exact hx0
      · exact ((ih hxs).mp hs0) y hy'
    · intro hall
      simp only [List.sum_cons]
      rw [hall x (List.mem_cons_self x xs), (ih hxs).mpr
        (fun y hy => hall y (List.mem_cons_of_mem x hy)), zero_add]

/-- C5 (amended).  On the non-rebalance trades: `win_rate` is
`100 * wins / total` (with `ℚ`'s `0 / 0 = 0` covering the empty case);
`profit_loss_quotient` (the source's `profit_loss_ratio` key) is
`avg win pnl / |avg loss pnl|` when losses exist and `0` otherwise; and
`profit_factor` is infinite iff there is at least one non-rebalance trade
and none has strictly negative pnl — also when the only "losses" have pnl
exactly `0` and there is no win, which is where the original claim's
"infinite iff no losses and at least one win" fails. -/
theorem trade_stats_formulas (trades : List Trade) :
    (calcTradeStats trades).win_rate =
      100 * (((trades.filter fun t => t.direction ≠ TradeDir.rebalance).filter
          fun t => 0 < t.pnl).length : ℚ) /
        ((trades.filter fun t => t.direction ≠ TradeDir.rebalance).length : ℚ) ∧
    (calcTradeStats trades).profit_loss_quotient =
      (if (trades.filter fun t => t.direction ≠ TradeDir.rebalance).filter
          (fun t => t.pnl ≤ 0) = [] then (0 : ℚ)
        else
          listMean (((trades.filter fun t => t.direction ≠ TradeDir.rebalance).filter
            fun t => 0 < t.pnl).map Trade.pnl) /
          |listMean (((trades.filter fun t => t.direction ≠ TradeDir.rebalance).filter
            (fun t => t.pnl ≤ 0)).map Trade.pnl)|) ∧
    ((calcTradeStats trades).profit_factor = ProfitFactor.infinite ↔
      (trades.filter fun t => t.direction ≠ TradeDir.rebalance) ≠ [] ∧
        ∀ t ∈ trades.filter fun t => t.direction ≠ TradeDir.rebalance, ¬ t.pnl < 0) := by
  set P := trades.filter fun t => t.direction ≠ TradeDir.rebalance with hP
  by_cases hp : P = []
  · have h1 : calcTradeStats trades = {
        total_trades := 0, win_rate := 0,
        profit_loss_quotient := 0, profit_factor := .finite 0 } := by
      simp only [calcTradeStats, ← hP]
      rw [if_pos hp]
    rw [h1, hp]
    refine ⟨by simp, by simp, by simp⟩
  · have h1 : calcTradeStats trades =
      { total_trades := P.length,
        win_rate := ((P.filter fun t => 0 < t.pnl).length : ℚ) / (P.length : ℚ) * 100,
        profit_loss_quotient :=
          if 0 < (if (P.filter fun t => t.pnl ≤ 0) ≠ [] then
              absQ (listMean ((P.filter fun t => t.pnl ≤ 0).map Trade.pnl)) else 0) then
            (if (P.filter fun t => 0 < t.pnl) ≠ [] then
              listMean ((P.filter fun t => 0 < t.pnl).map Trade.pnl) else 0) /
            (if (P.filter fun t => t.pnl ≤ 0) ≠ [] then
              absQ (listMean ((P.filter fun t => t.pnl ≤ 0).map Trade.pnl)) else 0)
          else 0,
        profit_factor :=
          if 0 < absQ ((P.filter fun t => t.pnl ≤ 0).map Trade.pnl).sum then
            ProfitFactor.finite (((P.filter fun t => 0 < t.pnl).map Trade.pnl).sum /
              absQ ((P.filter fun t => t.pnl ≤ 0).map Trade.pnl).sum)
          else ProfitFactor.infinite } := by
      simp only [calcTradeStats, ← hP]
      rw [if_neg hp]
    rw [h1]
    dsimp only
    refine ⟨by ring, ?_, ?_⟩
    · by_cases hl : P.filter (fun t => t.pnl ≤ 0) = []
      · rw [if_pos hl, hl]
        simp
      · rw [if_neg hl, if_pos hl]
        have havg : (if (P.filter fun t => 0 < t.pnl) ≠ [] then
            listMean ((P.filter fun t => 0 < t.pnl).map Trade.pnl) else 0) =
            listMean ((P.filter fun t => 0 < t.pnl).map Trade.pnl) := by
          by_cases hw : P.filter (fun t => 0 < t.pnl) = []
          · rw [if_neg (fun hne => hne hw), hw]
            simp [listMean]
          · rw [if_pos hw]
        rw [havg]
        by_cases habs : 0 < absQ (listMean ((P.filter fun t => t.pnl ≤ 0).map Trade.pnl))
        · rw [if_pos habs, absQ_eq_abs]
        · rw [if_neg habs]
          rw [absQ_eq_abs] at habs
          have h0 : |listMean ((P.filter fun t => t.pnl ≤ 0).map Trade.pnl)| = 0 :=
            le_antisymm (not_lt.mp habs) (abs_nonneg _)
          rw [h0, div_zero]
    · have hle : ∀ x ∈ ((P.filter fun t => t.pnl ≤ 0).map Trade.pnl), x ≤ 0 := by
        intro x hx
        rcases List.mem_map.mp hx with ⟨t, ht, rfl⟩
        exact of_decide_eq_true (List.mem_filter.mp ht).2
      constructor
      · intro hinf
        refine ⟨hp, ?_⟩
        by_cases hnz : 0 < absQ ((P.filter fun t => t.pnl ≤ 0).map Trade.pnl).sum
        · rw [if_pos hnz] at hinf
          exact absurd hinf (by simp)
        · have hq : ((P.filter fun t => t.pnl ≤ 0).map Trade.pnl).sum = 0 := by
            rw [absQ_eq_abs] at hnz
            exact abs_eq_zero.mp (le_antisymm (not_lt.mp hnz) (abs_nonneg _))
          intro t ht hlt
          have htl : t ∈ P.filter (fun t => t.pnl ≤ 0) :=
            List.mem_filter.mpr ⟨ht, decide_eq_true hlt.le⟩
          have := (sum_eq_zero_iff_of_nonpos _ hle).mp hq t.pnl
            (List.mem_map.mpr ⟨t, htl, rfl⟩)
          exact absurd this hlt.ne
      · rintro ⟨-, hall⟩
        have hsum0 : ((P.filter fun t => t.pnl ≤ 0).map Trade.pnl).sum = 0 := by
          refine (sum_eq_zero_iff_of_nonpos _ hle).mpr ?_
          intro x hx
          rcases List.mem_map.mp hx with ⟨t, ht, rfl⟩
          have hmem := List.mem_filter.mp ht
          have h1 : t.pnl ≤ 0 := of_decide_eq_true hmem.2
          rcases h1.lt_or_eq with h | h
          · exact absurd h (hall t hmem.1)
          · exact h
        rw [if_neg (by rw [hsum0]; simp [absQ])]

/-- A single non-rebalance trade whose pnl is exactly `0`
(the C5 counterexample input). -/
def zeroPnlTrade : Trade :=
  { direction := .long, entry_date := none, exit_date := mkDate 0 1,
    entry_price := 100, exit_price := 100, units := 1, pnl := 0, pnl_pct := 0 }

/-- C5 counterexample: with a single non-rebalance trade of pnl `0`, the
code reports `profit_factor` as infinite although there is no win and there
is a loss entry (`pnl <= 0`), so "infinite iff no losses and at least one
win" is false. -/
theorem trade_stats_profit_factor_counterexample :
    (calcTradeStats [zeroPnlTrade]).profit_factor = ProfitFactor.infinite ∧
    ([zeroPnlTrade].filter fun t => t.direction ≠ TradeDir.rebalance) = [zeroPnlTrade] ∧
    ([zeroPnlTrade].filter fun t => 0 < t.pnl) = [] ∧
    ([zeroPnlTrade].filter fun t => t.pnl ≤ 0) = [zeroPnlTrade] := by
  with_unfolding_all decide

/-- A float column cannot be both strictly above and strictly below another. -/
theorem optGT_optLT_exclusive (a b : Option ℚ) :
    ¬(optGT a b = true ∧ optLT a b = true) := by
  rintro ⟨h1, h2⟩
  cases a with
  | none => simp [optGT] at h1
  | some x =>
    cases b with
    | none => simp [optGT] at h1
    | some y =>
      simp only [optGT, optLT, decide_eq_true_eq] at h1 h2
      exact lt_asymm h1 h2

/-- Single-ma buy and sell crossovers are mutually exclusive at any index. -/
theorem single_exclusive (cfg : Config) (prices : List ℚ) (i : Nat) :
    ¬(buySingleAt cfg prices i = true ∧ sellSingleAt cfg prices i = true) := by
  rintro ⟨hb, hs⟩
  rw [buySingleAt, Bool.and_eq_true] at hb
  rw [sellSingleAt, Bool.and_eq_true] at hs
  exact optGT_optLT_exclusive _ _ ⟨hb.1, hs.1⟩

/-- Dual-ma buy and sell crossovers are mutually exclusive at any index. -/
theorem dual_exclusive (cfg : Config) (prices : List ℚ) (i : Nat) :
    ¬(buyDualAt cfg prices i = true ∧ sellDualAt cfg prices i = true) := by
  rintro ⟨hb, hs⟩
  rw [buyDualAt, Bool.and_eq_true] at hb
  rw [sellDualAt, Bool.and_eq_true] at hs
  exact optGT_optLT_exclusive _ _ ⟨hb.1, hs.1⟩

/-- C2.  For `single-ma` and `dual-ma`: the valid start index fed to the
trimming is `ma_fast` resp. `ma_slow`; buy and sell are never both true at
any index; the trimmed simulation input has exactly `length - startIdx`
periods; and its `i`-th period carries the signals of full-series index
`startIdx + i`, so indices before the valid start are never presented to
the state machine. -/
theorem signals_exclusive_and_trimmed (cfg : Config) (df : List Row)
    (hmode : cfg.strategy_mode = "single-ma" ∨ cfg.strategy_mode = "dual-ma") :
    startIdx cfg = (if cfg.strategy_mode = "dual-ma" then cfg.ma_slow else cfg.ma_fast) ∧
    (∀ (prices : List ℚ) (i : Nat),
      ¬(buyAt cfg prices i = true ∧ sellAt cfg prices i = true)) ∧
    (trimmedRows cfg df).length = df.length - startIdx cfg ∧
    (∀ i (h : i < (trimmedRows cfg df).length),
      (trimmedRows cfg df).get ⟨i, h⟩ =
        (df.getD (startIdx cfg + i) { date := { ord := 0, month := 0 }, price := 0 },
          buyAt cfg (df.map Row.price) (startIdx cfg + i),
          sellAt cfg (df.map Row.price) (startIdx cfg + i))) := by
  have hnb : cfg.strategy_mode ≠ "buy-hold" := by
    rcases hmode with hm | hm <;> rw [hm] <;> decide
  refine ⟨?_, ?_, ?_, ?_⟩
  · rcases hmode with hm | hm
    · have hnd : cfg.strategy_mode ≠ "dual-ma" := by rw [hm]; decide
      rw [startIdx, if_neg hnb, if_neg hnd]
    · rw [startIdx, if_neg hnb, if_pos hm]
  · intro prices i
    rcases hmode with hm | hm
    · have hnd : cfg.strategy_mode ≠ "dual-ma" := by rw [hm]; decide
      rw [buyAt, sellAt, if_neg hnb, if_neg hnb, if_neg hnd, if_neg hnd]
      exact single_exclusive cfg prices i
    · rw [buyAt, sellAt, if_neg hnb, if_neg hnb, if_pos hm, if_pos hm]
      exact dual_exclusive cfg prices i
  · simp [trimmedRows]
  · intro i h
    simp only [trimmedRows, List.get_eq_getElem, List.getElem_drop, List.getElem_map,
      List.getElem_range]

/-- Witness for C2: a concrete `single-ma` configuration. -/
theorem signals_exclusive_and_trimmed_witness :
    startIdx { strategy_mode := "single-ma", ma_fast := 5 } = 5 ∧
    ∀ (prices : List ℚ) (i : Nat),
      ¬(buyAt { strategy_mode := "single-ma", ma_fast := 5 } prices i = true ∧
        sellAt { strategy_mode := "single-ma", ma_fast := 5 } prices i = true) := by
  have h := signals_exclusive_and_trimmed
    { strategy_mode := "single-ma", ma_fast := 5 } flatData (Or.inl rfl)
  exact ⟨by rw [h.1]; decide, h.2.1⟩

/-- C3.  With `do_rebalance` enabled, the rebalance stage of a period fires
(appends a Rebalance trade) exactly when the month changed from the
previous period, a position is open, and cash is positive; firing realizes
the running P&L into cash, resizes to `leverage * cash / price` units,
charges `fee_rate * price * |Δunits|`, records a Rebalance trade whose pnl
is the negative fee, and sets `entry_price` to the period's price.  (Inside
`stepPeriod` the stage runs only when the liquidation branch did not fire,
per the per-period processing order.) -/
theorem rebalance_characterization (cfg : Config) (first : Bool) (prev curr : Row)
    (equity : ℚ) (s : SimState) (hreb : cfg.do_rebalance = true) :
    (((rebalanceStage cfg first prev curr equity s).trades ≠ s.trades) ↔
      (¬first ∧ curr.date.month ≠ prev.date.month ∧ s.pos ≠ 0 ∧ 0 < s.cash)) ∧
    ((¬first ∧ curr.date.month ≠ prev.date.month ∧ s.pos ≠ 0 ∧ 0 < s.cash) →
      rebalanceStage cfg first prev curr equity s = { s with
        cash := (s.cash + (curr.price - s.entry_price) * s.units * (s.pos : ℚ)) -
          cfg.fee_rate * curr.price *
            absQ ((s.cash + (curr.price - s.entry_price) * s.units * (s.pos : ℚ)) *
              cfg.leverage / curr.price - s.units),
        units := (s.cash + (curr.price - s.entry_price) * s.units * (s.pos : ℚ)) *
          cfg.leverage / curr.price,
        entry_price := curr.price,
        trades := s.trades ++ [{
          direction := .rebalance, entry_date := some curr.date, exit_date := curr.date,
          entry_price := curr.price, exit_price := curr.price,
          units := (s.cash + (curr.price - s.entry_price) * s.units * (s.pos : ℚ)) *
            cfg.leverage / curr.price,
          pnl := -(cfg.fee_rate * curr.price *
            absQ ((s.cash + (curr.price - s.entry_price) * s.units * (s.pos : ℚ)) *
              cfg.leverage / curr.price - s.units)),
          pnl_pct := if 0 < equity then
            -(cfg.fee_rate * curr.price *
              absQ ((s.cash + (curr.price - s.entry_price) * s.units * (s.pos : ℚ)) *
                cfg.leverage / curr.price - s.units)) / equity
            else 0 }] }) ∧
    (∀ sb ss : Bool,
      ¬(s.pos ≠ 0 ∧
          (if s.pos ≠ 0 then yieldAdjustedCash cfg first prev s +
              (curr.price - s.entry_price) * s.units * (s.pos : ℚ)
            else yieldAdjustedCash cfg first prev s) < cfg.initial_cash * 0.15) →
      stepPeriod cfg first prev curr sb ss s =
        (signalStage cfg curr sb ss (rebalanceStage cfg first prev curr
          (if s.pos ≠ 0 then yieldAdjustedCash cfg first prev s +
              (curr.price - s.entry_price) * s.units * (s.pos : ℚ)
            else yieldAdjustedCash cfg first prev s)
          { s with
            cash := yieldAdjustedCash cfg first prev s,
            curve := s.curve ++ [{
              date := curr.date,
              value := if s.pos ≠ 0 then yieldAdjustedCash cfg first prev s +
                  (curr.price - s.entry_price) * s.units * (s.pos : ℚ)
                else yieldAdjustedCash cfg first prev s }] }), false)) := by
  refine ⟨?_, ?_, ?_⟩
  · constructor
    · intro hne
      by_contra hcond
      apply hne
      rw [rebalanceStage, if_neg]
      rintro ⟨-, h2, h3, h4, h5⟩
      exact hcond ⟨h2, h3, h4, h5⟩
    · rintro ⟨h2, h3, h4, h5⟩
      rw [rebalanceStage, if_pos ⟨hreb, h2, h3, h4, h5⟩]
      simp
  · rintro ⟨h2, h3, h4, h5⟩
    rw [rebalanceStage, if_pos ⟨hreb, h2, h3, h4, h5⟩]
    simp only [SimState.mk.injEq, List.append_cancel_left_eq, List.cons.injEq,
      Trade.mk.injEq]
    repeat' apply And.intro
    all_goals first
      | rfl
      | ring
      | (split <;> (first | ring | rfl))
  · intro sb ss hno
    rw [stepPeriod, if_neg hno]

/-- Witness for C3 at a concrete configuration and state. -/
theorem rebalance_characterization_witness :
    ({ do_rebalance := true } : Config).do_rebalance = true ∧
    ((((rebalanceStage { do_rebalance := true } true (mkRow 0 100) (mkRow 1 100) 0
        (initState { do_rebalance := true })).trades ≠
          (initState { do_rebalance := true }).trades) ↔
      (¬(true : Bool) ∧ (mkRow 1 100).date.month ≠ (mkRow 0 100).date.month ∧
        (initState { do_rebalance := true }).pos ≠ 0 ∧
        0 < (initState { do_rebalance := true }).cash))) :=
  ⟨rfl, (rebalance_characterization { do_rebalance := true } true (mkRow 0 100)
    (mkRow 1 100) 0 (initState { do_rebalance := true }) rfl).1⟩

/-- Under long-only, the signal stage keeps the position in `{Flat, Long}`
and appends no Short-direction trade. -/
theorem signalStage_longOnly (cfg : Config) (hdir : cfg.trade_direction = "long-only")
    (curr : Row) (sb ss : Bool) (s : SimState) (hpos : s.pos = 0 ∨ s.pos = 1) :
    ((signalStage cfg curr sb ss s).pos = 0 ∨ (signalStage cfg curr sb ss s).pos = 1) ∧
    ∀ t ∈ (signalStage cfg curr sb ss s).trades,
      t ∈ s.trades ∨ t.direction ≠ TradeDir.short := by
  have hls : cfg.trade_direction ≠ "long-short" := by rw [hdir]; decide
  rw [signalStage]
  split_ifs with h1 h2 h3 h4 h5 h6 h7
  · exact absurd h2.1 hls
  · refine ⟨Or.inl rfl, ?_⟩
    intro t ht
    rcases List.mem_append.mp ht with h | h
    · exact Or.inl h
    · rcases List.mem_singleton.mp h with rfl
      exact Or.inr (by simp [closeLong])
  · rcases hpos with h | h <;> rw [h] at h3 <;> exact absurd h3.1 (by decide)
  · rcases hpos with h | h <;> rw [h] at h3 <;> exact absurd h3.1 (by decide)
  · exact ⟨Or.inr rfl, fun t ht => Or.inl ht⟩
  · exact absurd h7.2 hls
  · exact ⟨hpos, fun t ht => Or.inl ht⟩
  · exact ⟨hpos, fun t ht => Or.inl ht⟩

/-- The rebalance stage never changes the position flag and appends only a
Rebalance-direction trade. -/
theorem rebalanceStage_pos_trades (cfg : Config) (first : Bool) (prev curr : Row)
    (equity : ℚ) (s : SimState) :
    (rebalanceStage cfg first prev curr equity s).pos = s.pos ∧
    ∀ t ∈ (rebalanceStage cfg first prev curr equity s).trades,
      t ∈ s.trades ∨ t.direction ≠ TradeDir.short := by
  by_cases h : cfg.do_rebalance = true ∧ ¬first = true ∧
      curr.date.month ≠ prev.date.month ∧ s.pos ≠ 0 ∧ 0 < s.cash
  · rw [rebalanceStage, if_pos h]
    refine ⟨rfl, ?_⟩
    intro t ht
    rcases List.mem_append.mp ht with h' | h'
    · exact Or.inl h'
    · rcases List.mem_singleton.mp h' with rfl
      exact Or.inr (by simp)
  · rw [rebalanceStage, if_neg h]
    exact ⟨rfl, fun t ht => Or.inl ht⟩

/-- Without the `long-short` direction the signal stage can never move the
position to Short. -/
theorem signalStage_ne_neg (cfg : Config) (hls : cfg.trade_direction ≠ "long-short")
    (curr : Row) (sb ss : Bool) (s : SimState) (h : s.pos ≠ -1) :
    (signalStage cfg curr sb ss s).pos ≠ -1 := by
  rw [signalStage]
  split_ifs with h1 h2 h3 h4 h5 h6 h7
  · exact absurd h2.1 hls
  · simp [closeLong]
  · exact absurd h3.1 h
  · exact absurd h3.1 h
  · simp [openLong]
  · exact absurd h7.2 hls
  · exact h
  · exact h

/-- Under long-only, one period step keeps the position in `{Flat, Long}`
and appends no Short-direction trade. -/
theorem stepPeriod_longOnly (cfg : Config) (hdir : cfg.trade_direction = "long-only")
    (first : Bool) (prev curr : Row) (sb ss : Bool) (s : SimState)
    (hpos : s.pos = 0 ∨ s.pos = 1) :
    ((stepPeriod cfg first prev curr sb ss s).1.pos = 0 ∨
      (stepPeriod cfg first prev curr sb ss s).1.pos = 1) ∧
    ∀ t ∈ (stepPeriod cfg first prev curr sb ss s).1.trades,
      t ∈ s.trades ∨ t.direction ≠ TradeDir.short := by
  simp only [stepPeriod]
  by_cases hliq : s.pos ≠ 0 ∧
      (if s.pos ≠ 0 then yieldAdjustedCash cfg first prev s +
          (curr.price - s.entry_price) * s.units * (s.pos : ℚ)
        else yieldAdjustedCash cfg first prev s) < cfg.initial_cash * 0.15
  · rw [if_pos hliq]
    exact ⟨hpos, fun t ht => Or.inl ht⟩
  · rw [if_neg hliq]
    have h2 := rebalanceStage_pos_trades cfg first prev curr
      (if s.pos ≠ 0 then yieldAdjustedCash cfg first prev s +
          (curr.price - s.entry_price) * s.units * (s.pos : ℚ)
        else yieldAdjustedCash cfg first prev s)
      { s with
        cash := yieldAdjustedCash cfg first prev s,
        curve := s.curve ++ [{
          date := curr.date,
          value := if s.pos ≠ 0 then yieldAdjustedCash cfg first prev s +
              (curr.price - s.entry_price) * s.units * (s.pos : ℚ)
            else yieldAdjustedCash cfg first prev s }] }
    have h3 := signalStage_longOnly cfg hdir curr sb ss _ (by rw [h2.1]; exact hpos)
    refine ⟨h3.1, ?_⟩
    intro t ht
    rcases h3.2 t ht with h' | h'
    · rcases h2.2 t h' with h'' | h''
      · exact Or.inl h''
      · exact Or.inr h''
    · exact Or.inr h'

/-- Under long-only, the whole loop keeps the position in `{Flat, Long}`
and its ledger free of Short trades. -/
theorem simLoop_longOnly (cfg : Config) (hdir : cfg.trade_direction = "long-only") :
    ∀ (rows : List (Row × Bool × Bool)) (prev : Row) (first : Bool) (s : SimState),
      (s.pos = 0 ∨ s.pos = 1) → (∀ t ∈ s.trades, t.direction ≠ TradeDir.short) →
      ((simLoop cfg prev first rows s).pos = 0 ∨ (simLoop cfg prev first rows s).pos = 1) ∧
      ∀ t ∈ (simLoop cfg prev first rows s).trades, t.direction ≠ TradeDir.short := by
  intro rows
  induction rows with
  | nil => exact fun prev first s hpos hs => ⟨hpos, hs⟩
  | cons r rest ih =>
    intro prev first s hpos hs
    rcases r with ⟨row, sb, ss⟩
    have hstep := stepPeriod_longOnly cfg hdir first prev row sb ss s hpos
    have hst : ∀ t ∈ (stepPeriod cfg first prev row sb ss s).1.trades,
        t.direction ≠ TradeDir.short := fun t ht => (hstep.2 t ht).elim (hs t) id
    rcases hsp : stepPeriod cfg first prev row sb ss s with ⟨s1, halt⟩
    rw [hsp] at hstep hst
    rw [simLoop, hsp]
    dsimp only at hstep hst ⊢
    cases halt
    · rw [if_neg Bool.false_ne_true]
      exact ih row false s1 hstep.1 hst
    · rw [if_pos rfl]
      exact ⟨hstep.1, hst⟩

/-- Under long-only the forced close can only emit a Long trade. -/
theorem forcedClose_longOnly (cfg : Config) (rows : List Row) (s : SimState)
    (hpos : s.pos = 0 ∨ s.pos = 1)
    (hs : ∀ t ∈ s.trades, t.direction ≠ TradeDir.short) :
    ∀ t ∈ (forcedClose cfg rows s).trades, t.direction ≠ TradeDir.short := by
  rcases hl : rows.getLast? with _ | lastRow
  · rw [forcedClose, hl]
    exact hs
  · rw [forcedClose, hl]
    dsimp only
    by_cases h : s.pos ≠ 0 ∧ 0 < s.cash
    · rw [if_pos h]
      intro t ht
      rcases List.mem_append.mp ht with h' | h'
      · exact hs t h'
      · rcases List.mem_singleton.mp h' with rfl
        have hp1 : s.pos = 1 := by
          rcases hpos with h0 | h0
          · exact absurd h0 h.1
          · exact h0
        simp [hp1]
    · rw [if_neg h]
      exact hs

/-- Under long-only the full loop from any flat-or-long start keeps the
position in `{Flat, Long}` and the ledger free of Short trades. -/
theorem runLoop_longOnly (cfg : Config) (hdir : cfg.trade_direction = "long-only")
    (rows : List (Row × Bool × Bool)) (s0 : SimState)
    (h0 : s0.pos = 0 ∨ s0.pos = 1)
    (hs0 : ∀ t ∈ s0.trades, t.direction ≠ TradeDir.short) :
    ((runLoop cfg rows s0).pos = 0 ∨ (runLoop cfg rows s0).pos = 1) ∧
    ∀ t ∈ (runLoop cfg rows s0).trades, t.direction ≠ TradeDir.short := by
  cases rows with
  | nil => exact ⟨h0, hs0⟩
  | cons r rest => exact simLoop_longOnly cfg hdir (r :: rest) r.1 true s0 h0 hs0

/-- C9.  With `trade_direction = "long-only"`, every period step preserves
"position is never Short" (`pos ≠ -1`) — the Short entries after closing a
Long and from Flat are both guarded by `long-short`, so the unguarded
Short-to-Long flip is unreachable — and consequently the trade ledger of
any successful run contains no Short-direction trade. -/
theorem long_only_never_short (cfg : Config)
    (hdir : cfg.trade_direction = "long-only") :
    (∀ (first : Bool) (prev curr : Row) (sb ss : Bool) (s : SimState),
      s.pos ≠ -1 → (stepPeriod cfg first prev curr sb ss s).1.pos ≠ -1) ∧
    (∀ (data : List Row) (rpow : ℚ → ℚ → ℚ) (sqrtQ : ℚ → ℚ) (r : BacktestResult),
      run cfg data rpow sqrtQ = .ok r → ∀ t ∈ r.trades,
        t.direction ≠ TradeDir.short) := by
  have hls : cfg.trade_direction ≠ "long-short" := by rw [hdir]; decide
  constructor
  · intro first prev curr sb ss s hne
    simp only [stepPeriod]
    by_cases hliq : s.pos ≠ 0 ∧
        (if s.pos ≠ 0 then yieldAdjustedCash cfg first prev s +
            (curr.price - s.entry_price) * s.units * (s.pos : ℚ)
          else yieldAdjustedCash cfg first prev s) < cfg.initial_cash * 0.15
    · rw [if_pos hliq]
      exact hne
    · rw [if_neg hliq]
      have hreb := rebalanceStage_pos_trades cfg first prev curr
        (if s.pos ≠ 0 then yieldAdjustedCash cfg first prev s +
            (curr.price - s.entry_price) * s.units * (s.pos : ℚ)
          else yieldAdjustedCash cfg first prev s)
        { s with
          cash := yieldAdjustedCash cfg first prev s,
          curve := s.curve ++ [{
            date := curr.date,
            value := if s.pos ≠ 0 then yieldAdjustedCash cfg first prev s +
                (curr.price - s.entry_price) * s.units * (s.pos : ℚ)
              else yieldAdjustedCash cfg first prev s }] }
      exact signalStage_ne_neg cfg hls curr sb ss _ (by rw [hreb.1]; exact hne)
  · intro data rpow sqrtQ r hr
    rw [run] at hr
    by_cases h30 : (prepare cfg data).length < 30
    · rw [if_pos h30] at hr
      exact absurd hr (by simp)
    · rw [if_neg h30] at hr
      dsimp only at hr
      rcases hlast : (List.map Prod.fst (trimmedRows cfg (prepare cfg data))).getLast?
          with _ | lastRow
      · rw [hlast] at hr
        exact absurd hr (by simp)
      · rcases hhead : (List.map Prod.fst (trimmedRows cfg (prepare cfg data))).head?
            with _ | firstRow
        · rw [hlast, hhead] at hr
          exact absurd hr (by simp)
        · rw [hlast, hhead] at hr
          dsimp only at hr
          obtain rfl := Except.ok.inj hr
          have hloop := runLoop_longOnly cfg hdir (trimmedRows cfg (prepare cfg data))
            (initState cfg) (Or.inl rfl) (fun t ht => absurd ht (List.not_mem_nil t))
          exact forcedClose_longOnly cfg _ _ hloop.1 hloop.2

/-- Witness for C9 at a concrete long-only configuration and state. -/
theorem long_only_never_short_witness :
    ({ trade_direction := "long-only" } : Config).trade_direction = "long-only" ∧
    (stepPeriod { trade_direction := "long-only" } true (mkRow 0 100) (mkRow 1 100)
      false false (initState { trade_direction := "long-only" })).1.pos ≠ -1 :=
  ⟨rfl, (long_only_never_short { trade_direction := "long-only" } rfl).1
    true (mkRow 0 100) (mkRow 1 100) false false
    (initState { trade_direction := "long-only" }) (by decide)⟩

/-- The sweep loop bumps the counter for every combination and collects
exactly the successful runs, in order. -/
theorem optLoop_characterization (o : OptConfig) (data : List Row)
    (rpow : ℚ → ℚ → ℚ) (sqrtQ : ℚ → ℚ) :
    ∀ (cs : List Combo) (tested : Nat) (acc : List Candidate),
      (optLoop o data rpow sqrtQ cs tested acc).1 = tested + cs.length ∧
      (optLoop o data rpow sqrtQ cs tested acc).2 =
        acc ++ cs.filterMap fun c =>
          ((run (engineCfg o c) data rpow sqrtQ).toOption).map (mkCand c) := by
  intro cs
  induction cs with
  | nil =>
    intro tested acc
    simp [optLoop]
  | cons c rest ih =>
    intro tested acc
    rcases hrun : run (engineCfg o c) data rpow sqrtQ with e | res
    · rw [optLoop, hrun]
      refine ⟨by rw [(ih (tested + 1) acc).1, List.length_cons]; omega, ?_⟩
      rw [(ih (tested + 1) acc).2]
      simp [List.filterMap_cons, hrun, Except.toOption]
    · rw [optLoop, hrun]
      refine ⟨by rw [(ih (tested + 1) _).1, List.length_cons]; omega, ?_⟩
      rw [(ih (tested + 1) _).2]
      simp [List.filterMap_cons, hrun, Except.toOption]

/-- Every survivor of the dedup pass is an input row, possibly with its
`ma_period`/`direction` normalised to the placeholder. -/
theorem dedupLoop_mem : ∀ (l : List Candidate) (seen : List ℚ) (x : Candidate),
    x ∈ dedupLoop l seen →
    ∃ y ∈ l, x = y ∨ x = { y with ma_period := none, direction := "-" } := by
  intro l
  induction l with
  | nil =>
    intro seen x hx
    rw [dedupLoop] at hx
    exact absurd hx (List.not_mem_nil x)
  | cons r rest ih =>
    intro seen x hx
    rw [dedupLoop] at hx
    split_ifs at hx with h1 h2
    · rcases ih _ _ hx with ⟨y, hy, he⟩
      exact ⟨y, List.mem_cons_of_mem _ hy, he⟩
    · rcases List.mem_cons.mp hx with hxr | hx'
      · exact ⟨r, List.mem_cons_self _ _, Or.inr hxr⟩
      · rcases ih _ _ hx' with ⟨y, hy, he⟩
        exact ⟨y, List.mem_cons_of_mem _ hy, he⟩
    · rcases List.mem_cons.mp hx with hxr | hx'
      · exact ⟨r, List.mem_cons_self _ _, Or.inl hxr⟩
      · rcases ih _ _ hx' with ⟨y, hy, he⟩
        exact ⟨y, List.mem_cons_of_mem _ hy, he⟩

/-- Every entry of `top_results` descends from a successful run of one
grid combination (possibly with the buy-hold placeholder normalisation),
with the internal flag stripped. -/
theorem optRun_top_mem (o : OptConfig) (data : List Row)
    (rpow : ℚ → ℚ → ℚ) (sqrtQ : ℚ → ℚ) :
    ∀ out ∈ (optRun o data rpow sqrtQ).top_results,
      ∃ c res, c ∈ combos o ∧ run (engineCfg o c) data rpow sqrtQ = .ok res ∧
        (out = stripFlag (mkCand c res) ∨
          out = stripFlag { mkCand c res with ma_period := none, direction := "-" }) := by
  intro out hout
  rw [optRun] at hout
  dsimp only at hout
  have h1 : out ∈ ((dedupLoop (((if o.filter_liquidation = true then
      (optLoop o data rpow sqrtQ (combos o) 0 []).2.filter
        (fun r => r.is_liquidated = false)
    else (optLoop o data rpow sqrtQ (combos o) 0 []).2)).filter
      (fun r => r.mdd ≤ o.max_mdd)) []).mergeSort fun a b =>
        metricOfC o.target b ≤ metricOfC o.target a).map stripFlag :=
    List.mem_of_mem_take hout
  rcases List.mem_map.mp h1 with ⟨cand, hcand, rfl⟩
  have h2 := List.mem_mergeSort.mp hcand
  rcases dedupLoop_mem _ _ _ h2 with ⟨y, hy, hform⟩
  have h3 : y ∈ (if o.filter_liquidation = true then
      (optLoop o data rpow sqrtQ (combos o) 0 []).2.filter
        (fun r => r.is_liquidated = false)
    else (optLoop o data rpow sqrtQ (combos o) 0 []).2) :=
    (List.mem_filter.mp hy).1
  have h4 : y ∈ (optLoop o data rpow sqrtQ (combos o) 0 []).2 := by
    by_cases hf : o.filter_liquidation = true
    · rw [if_pos hf] at h3
      exact (List.mem_filter.mp h3).1
    · rw [if_neg hf] at h3
      exact h3
  rw [(optLoop_characterization o data rpow sqrtQ (combos o) 0 []).2,
    List.nil_append] at h4
  rcases List.mem_filterMap.mp h4 with ⟨c, hc, hfc⟩
  rcases hrun : run (engineCfg o c) data rpow sqrtQ with e | res
  · rw [hrun] at hfc
    simp [Except.toOption] at hfc
  · rw [hrun] at hfc
    have hy2 : mkCand c res = y := by
      simpa [Except.toOption] using hfc
    subst hy2
    rcases hform with h5 | h5
    · exact ⟨c, res, hc, hrun, Or.inl (by rw [h5])⟩
    · exact ⟨c, res, hc, hrun, Or.inr (by rw [h5])⟩

/-- C6.  A combination whose backtest raises is silently skipped: it still
counts in `total_tested`, contributes nothing to the collected results
(hence neither to `valid_results` nor to `top_results`, whose every entry
descends from a successful combination), and the sweep always returns a
complete record. -/
theorem optimizer_skips_failures (o : OptConfig) (data : List Row)
    (rpow : ℚ → ℚ → ℚ) (sqrtQ : ℚ → ℚ) :
    (optRun o data rpow sqrtQ).total_tested = (combos o).length ∧
    (optLoop o data rpow sqrtQ (combos o) 0 []).2 =
      (combos o).filterMap (fun c =>
        ((run (engineCfg o c) data rpow sqrtQ).toOption).map (mkCand c)) ∧
    (∀ out ∈ (optRun o data rpow sqrtQ).top_results,
      ∃ c res, c ∈ combos o ∧ run (engineCfg o c) data rpow sqrtQ = .ok res ∧
        (out = stripFlag (mkCand c res) ∨
          out = stripFlag { mkCand c res with ma_period := none, direction := "-" })) := by
  refine ⟨?_, ?_, optRun_top_mem o data rpow sqrtQ⟩
  · rw [optRun]
    dsimp only
    rw [(optLoop_characterization o data rpow sqrtQ (combos o) 0 []).1]
    exact Nat.zero_add _
  · rw [(optLoop_characterization o data rpow sqrtQ (combos o) 0 []).2,
      List.nil_append]

/-- The post-dedup list sorted by the optimizer is pairwise descending in
the selected metric. -/
theorem optRun_sorted_pairwise (o : OptConfig) (l : List Candidate) :
    List.Pairwise (fun a b : Candidate =>
        metricOfC o.target b ≤ metricOfC o.target a)
      (l.mergeSort fun a b => metricOfC o.target b ≤ metricOfC o.target a) := by
  have h := @List.sorted_mergeSort Candidate
    (fun a b : Candidate => decide (metricOfC o.target b ≤ metricOfC o.target a))
    (fun a b c hab hbc => decide_eq_true
      (le_trans (of_decide_eq_true hbc) (of_decide_eq_true hab)))
    (fun a b => by
      rcases le_total (metricOfC o.target b) (metricOfC o.target a) with h | h
      · simp [h]
      · simp [h])
    l
  exact h.imp fun hab => of_decide_eq_true hab

/-- C7.  The optimizer's `top_results` has at most 10 entries, is pairwise
descending in the selected target metric (`total_return`, `cagr`, `sharpe`
or `calmar`; each implication below is active for its own target string),
every entry is a candidate with the internal `is_liquidated` flag stripped
(the output record type has no such field), and each entry's `calmar` is
`cagr / mdd`, `0` when `mdd` is `0`. -/
theorem top_results_sorted (o : OptConfig) (data : List Row)
    (rpow : ℚ → ℚ → ℚ) (sqrtQ : ℚ → ℚ)
    (htarget : o.target = "total_return" ∨ o.target = "cagr" ∨
      o.target = "sharpe" ∨ o.target = "calmar") :
    (optRun o data rpow sqrtQ).top_results.length ≤ 10 ∧
    List.Pairwise (fun a b => metricOf o.target b ≤ metricOf o.target a)
      (optRun o data rpow sqrtQ).top_results ∧
    List.Pairwise (fun a b : CandidateOut =>
      (o.target = "total_return" → b.total_return ≤ a.total_return) ∧
      (o.target = "cagr" → b.cagr ≤ a.cagr) ∧
      (o.target = "sharpe" → b.sharpe ≤ a.sharpe) ∧
      (o.target = "calmar" → b.calmar ≤ a.calmar))
      (optRun o data rpow sqrtQ).top_results ∧
    (∃ cs : List Candidate,
      (optRun o data rpow sqrtQ).top_results = cs.map stripFlag) ∧
    (∀ e ∈ (optRun o data rpow sqrtQ).top_results,
      (e.mdd = 0 → e.calmar = 0) ∧ (0 < e.mdd → e.calmar = e.cagr / e.mdd)) := by
  have hpair : List.Pairwise (fun a b => metricOf o.target b ≤ metricOf o.target a)
      (optRun o data rpow sqrtQ).top_results := by
    rw [optRun]
    dsimp only
    refine List.Pairwise.sublist (List.take_sublist _ _) ?_
    exact (optRun_sorted_pairwise o _).map stripFlag fun a b h => h
  refine ⟨?_, hpair, ?_, ?_, ?_⟩
  · rw [optRun]
    exact List.length_take_le _ _
  · refine hpair.imp fun hab => ⟨?_, ?_, ?_, ?_⟩ <;> intro ht <;> rw [ht] at hab <;>
      simpa [metricOf] using hab
  · refine ⟨((dedupLoop (((if o.filter_liquidation = true then
        (optLoop o data rpow sqrtQ (combos o) 0 []).2.filter
          (fun r => r.is_liquidated = false)
      else (optLoop o data rpow sqrtQ (combos o) 0 []).2)).filter
        (fun r => r.mdd ≤ o.max_mdd)) []).mergeSort fun a b =>
          metricOfC o.target b ≤ metricOfC o.target a).take 10, ?_⟩
    rw [optRun]
    dsimp only
    rw [List.map_take]
  · intro e he
    rcases optRun_top_mem o data rpow sqrtQ e he with ⟨c, res, -, -, h5 | h5⟩ <;>
      subst h5 <;>
      refine ⟨?_, ?_⟩ <;> intro hm <;> simp only [stripFlag, mkCand] at hm ⊢
    · rw [if_neg (by rw [hm]; exact lt_irrefl 0)]
    · rw [if_pos hm]
    · rw [if_neg (by rw [hm]; exact lt_irrefl 0)]
    · rw [if_pos hm]

/-- Witness for C7 with the concrete target `"total_return"`. -/
theorem top_results_sorted_witness :
    (({ target := "total_return" } : OptConfig).target = "total_return" ∨
      ({ target := "total_return" } : OptConfig).target = "cagr" ∨
      ({ target := "total_return" } : OptConfig).target = "sharpe" ∨
      ({ target := "total_return" } : OptConfig).target = "calmar") ∧
    (optRun { target := "total_return" } flatData (fun a _ => a)
      (fun a => a)).top_results.length ≤ 10 :=
  ⟨Or.inl rfl, (top_results_sorted { target := "total_return" } flatData
    (fun a _ => a) (fun a => a) (Or.inl rfl)).1⟩

/-- Inverting a halted step: the halt flag is set only by the liquidation
branch, which requires an open position, zeroes nothing but the curve's new
point, and leaves position, units and trades untouched. -/
theorem stepPeriod_halt (cfg : Config) (first : Bool) (prev curr : Row)
    (sb ss : Bool) (s s1 : SimState)
    (h : stepPeriod cfg first prev curr sb ss s = (s1, true)) :
    s.pos ≠ 0 ∧ s1.pos = s.pos ∧
    s1.curve = s.curve ++ [{ date := curr.date, value := 0 }] ∧
    s1.trades = s.trades ∧ s1.cash = yieldAdjustedCash cfg first prev s ∧
    s1.liquidated = true := by
  simp only [stepPeriod] at h
  by_cases hliq : s.pos ≠ 0 ∧
      (if s.pos ≠ 0 then yieldAdjustedCash cfg first prev s +
          (curr.price - s.entry_price) * s.units * (s.pos : ℚ)
        else yieldAdjustedCash cfg first prev s) < cfg.initial_cash * 0.15
  · rw [if_pos hliq] at h
    obtain rfl := (Prod.ext_iff.mp h).1.symm
    exact ⟨hliq.1, rfl, rfl, rfl, rfl, rfl⟩
  · rw [if_neg hliq] at h
    exact absurd (Prod.ext_iff.mp h).2 (by simp)

/-- The `liquidated` ghost flag survives the signal stage unchanged. -/
theorem signalStage_liquidated (cfg : Config) (curr : Row) (sb ss : Bool)
    (s : SimState) :
    (signalStage cfg curr sb ss s).liquidated = s.liquidated := by
  rw [signalStage]
  split_ifs <;> rfl

/-- The `liquidated` ghost flag survives the rebalance stage unchanged. -/
theorem rebalanceStage_liquidated (cfg : Config) (first : Bool) (prev curr : Row)
    (equity : ℚ) (s : SimState) :
    (rebalanceStage cfg first prev curr equity s).liquidated = s.liquidated := by
  rw [rebalanceStage]
  split_ifs <;> rfl

/-- A non-halting step leaves the `liquidated` ghost flag unchanged. -/
theorem stepPeriod_nohalt_liquidated (cfg : Config) (first : Bool)
    (prev curr : Row) (sb ss : Bool) (s s1 : SimState)
    (h : stepPeriod cfg first prev curr sb ss s = (s1, false)) :
    s1.liquidated = s.liquidated := by
  simp only [stepPeriod] at h
  by_cases hliq : s.pos ≠ 0 ∧
      (if s.pos ≠ 0 then yieldAdjustedCash cfg first prev s +
          (curr.price - s.entry_price) * s.units * (s.pos : ℚ)
        else yieldAdjustedCash cfg first prev s) < cfg.initial_cash * 0.15
  · rw [if_pos hliq] at h
    exact absurd (Prod.ext_iff.mp h).2 (by simp)
  · rw [if_neg hliq] at h
    obtain rfl := (Prod.ext_iff.mp h).1.symm
    rw [signalStage_liquidated, rebalanceStage_liquidated]

/-- If the loop ends liquidated (having started not liquidated), the final
state still holds the open position and its curve ends in a zero-value
point. -/
theorem simLoop_liquidated (cfg : Config) :
    ∀ (rows : List (Row × Bool × Bool)) (prev : Row) (first : Bool) (s0 : SimState),
      s0.liquidated = false → (simLoop cfg prev first rows s0).liquidated = true →
      (simLoop cfg prev first rows s0).pos ≠ 0 ∧
      ∃ d, (simLoop cfg prev first rows s0).curve.getLast? =
        some { date := d, value := 0 } := by
  intro rows
  induction rows with
  | nil =>
    intro prev first s0 h0 hliq
    rw [simLoop] at hliq
    exact absurd (h0 ▸ hliq) (by simp)
  | cons r rest ih =>
    intro prev first s0 h0 hliq
    rcases r with ⟨row, sb, ss⟩
    rcases hsp : stepPeriod cfg first prev row sb ss s0 with ⟨s1, halt⟩
    rw [simLoop, hsp] at hliq ⊢
    dsimp only at hliq ⊢
    cases halt
    · rw [if_neg Bool.false_ne_true] at hliq ⊢
      exact ih row false s1 ((stepPeriod_nohalt_liquidated cfg first prev row
        sb ss s0 s1 hsp).trans h0) hliq
    · rw [if_pos rfl] at hliq ⊢
      have hinv := stepPeriod_halt cfg first prev row sb ss s0 s1 hsp
      refine ⟨hinv.2.1 ▸ hinv.1, row.date, ?_⟩
      rw [hinv.2.2.1, List.getLast?_append]
      rfl

/-- C1 (amended).  When the equity snapshot of a period falls below 15% of
initial cash with an open position: that period appends exactly one
zero-value EquityPoint and halts the loop (conjunct 1), the remaining
periods are discarded (conjunct 2), the final loop state keeps the open
position with the zero point last on the curve (conjunct 3); however the
end-of-series forced close still runs after the loop: it never changes the
curve, and it appends exactly one closing trade when the cash balance is
positive — contrary to the original claim — and none otherwise
(conjunct 4). -/
theorem liquidation_behavior (cfg : Config) :
    (∀ (first : Bool) (prev curr : Row) (sb ss : Bool) (s : SimState),
      s.pos ≠ 0 →
      yieldAdjustedCash cfg first prev s +
          (curr.price - s.entry_price) * s.units * (s.pos : ℚ) <
        cfg.initial_cash * 0.15 →
      stepPeriod cfg first prev curr sb ss s =
        ({ s with
            cash := yieldAdjustedCash cfg first prev s,
            liquidated := true,
            curve := s.curve ++ [{ date := curr.date, value := 0 }] }, true)) ∧
    (∀ (prev : Row) (first : Bool) (r : Row × Bool × Bool)
        (rest : List (Row × Bool × Bool)) (s s1 : SimState),
      stepPeriod cfg first prev r.1 r.2.1 r.2.2 s = (s1, true) →
      simLoop cfg prev first (r :: rest) s = s1) ∧
    (∀ (rows : List (Row × Bool × Bool)) (s0 : SimState),
      s0.liquidated = false → (runLoop cfg rows s0).liquidated = true →
      (runLoop cfg rows s0).pos ≠ 0 ∧
      ∃ d, (runLoop cfg rows s0).curve.getLast? = some { date := d, value := 0 }) ∧
    (∀ (rows : List Row) (s : SimState), s.pos ≠ 0 → rows ≠ [] →
      (forcedClose cfg rows s).curve = s.curve ∧
      (0 < s.cash →
        (forcedClose cfg rows s).trades.length = s.trades.length + 1) ∧
      (¬0 < s.cash → forcedClose cfg rows s = s)) := by
  refine ⟨?_, ?_, ?_, ?_⟩
  · intro first prev curr sb ss s hpos hlt
    simp only [stepPeriod]
    rw [if_pos ⟨hpos, by rw [if_pos hpos]; exact hlt⟩]
  · intro prev first r rest s s1 hstep
    rcases r with ⟨row, sb, ss⟩
    rw [simLoop, hstep]
    rfl
  · intro rows s0 h0 hliq
    cases rows with
    | nil =>
      rw [runLoop] at hliq
      exact absurd (h0 ▸ hliq) (by simp)
    | cons r rest =>
      rw [runLoop] at hliq ⊢
      exact simLoop_liquidated cfg (r :: rest) r.1 true s0 h0 hliq
  · intro rows s hpos hne
    rcases hl : rows.getLast? with _ | lastRow
    · rw [List.getLast?_eq_none_iff] at hl
      exact absurd hl hne
    · rw [forcedClose, hl]
      dsimp only
      by_cases hc : 0 < s.cash
      · rw [if_pos ⟨hpos, hc⟩]
        refine ⟨rfl, fun _ => by simp, fun hc' => absurd hc hc'⟩
      · rw [if_neg (fun hand => hc hand.2)]
        exact ⟨rfl, fun hc' => absurd hc' hc, fun _ => rfl⟩

/-- The 30-observation price path of the C1 counterexample: 100 on day 0,
then 50 for the remaining days of the same month. -/
def liqData : List Row := (List.range 30).map fun i => mkRow i (if i = 0 then 100 else 50)

/-- Configuration of the C1 counterexample: 2x-leveraged buy-hold, no fees,
no slippage, no rebalancing, 100 initial cash. -/
def liqCfg : Config :=
  { initial_cash := 100, leverage := 2, fee_rate := 0, slippage := 0,
    strategy_mode := "buy-hold", do_rebalance := false }

set_option maxRecDepth 100000 in
set_option maxHeartbeats 1000000 in
/-- C1 counterexample: the run liquidates at day 1 (equity curve
`[(0, 100), (1, 0)]`, the zero point last) with a position open and
positive cash, yet the trade ledger gains one entry dated day 29 with pnl
`-100` — the end-of-series forced close still runs after the liquidation
break — so "no closing trade is recorded" is false on the code. -/
theorem liquidation_records_trade_counterexample :
    (postLoopState liqCfg liqData).liquidated = true ∧
    ((run liqCfg liqData (fun a _ => a) (fun a => a)).toOption.map fun r =>
      (r.equity_curve.map (fun e => (e.date.ord, e.value)),
        r.trades.map (fun t => (t.exit_date.ord, t.pnl)))) =
      some ([((0 : Int), (100 : ℚ)), (1, 0)], [((29 : Int), (-100 : ℚ))]) := by
  with_unfolding_all decide

/-- Witness for the amended C1 at a concrete liquidating state. -/
def liqState : SimState :=
  { cash := 100, pos := 1, entry_price := 100, entry_date := none,
    units := 2, curve := [], trades := [], liquidated := false }

/-- Witness for C1 (amended): conjunct 1 applied to a concrete period whose
equity snapshot (0) is below 15% of initial cash. -/
theorem liquidation_behavior_witness :
    liqState.pos ≠ 0 ∧
    yieldAdjustedCash liqCfg false (mkRow 0 100) liqState +
        ((mkRow 1 50).price - liqState.entry_price) * liqState.units *
          (liqState.pos : ℚ) <
      liqCfg.initial_cash * 0.15 ∧
    stepPeriod liqCfg false (mkRow 0 100) (mkRow 1 50) false false liqState =
      ({ liqState with
          cash := yieldAdjustedCash liqCfg false (mkRow 0 100) liqState,
          liquidated := true,
          curve := liqState.curve ++ [{ date := (mkRow 1 50).date, value := 0 }] },
        true) :=
  ⟨by decide, by with_unfolding_all decide,
    (liquidation_behavior liqCfg).1 false (mkRow 0 100) (mkRow 1 50) false false
      liqState (by decide) (by with_unfolding_all decide)⟩

end StrategyBacktest
